import Mathlib

/-!
# Verification of the intro-card creation core (`create_intro_cards.py`)

This file shallowly embeds the core logic of the repository's single source
module: the Mathtex sanitizer (`_format_data_and_derive_full_names`), the
description builder (`_get_description_string_from_row`), the photo resolver
and stats accumulation inside `_make_card`, the paginator of `_make_figs`
together with `_ceil_div`, the description font-shrink loop of `_make_card`,
and the input validation / PDF assembly skeleton of `make_pdf`.

Strings are modelled as Lean `String`/`List Char`; Python's single-character
`str.replace` is modelled by `replace1`; the filesystem and the image codec
are modelled by a pair of boolean oracles; the matplotlib layout measurement
is modelled by an abstract measurer function (font size to the lower edge of
the laid-out bounding box, in Axes-relative coordinates), and the float
arithmetic of the shrink loop by exact rationals.
-/

set_option autoImplicit false

universe u

/-! ## Sanitizer (`_format_data_and_derive_full_names`, lines 1044-1070)

The source transforms a custom column name by `col.strip()`, then
`formatted_col.replace(char, "")` for each of `~`, `^`, `\`, then
`formatted_col.replace(char, "\" + char)` for each of space, `#`, `$`, `%`,
`_`, `{`, `}`; it transforms every value of a custom column by
`.str.replace("$", "\$")`. -/

/-- Python's `str.replace(c, r)` for a single-character pattern `c`:
every occurrence of `c` is replaced by the string `r`. -/
def replace1 (c : Char) (r : List Char) : List Char → List Char
  | [] => []
  | x :: xs => (if x = c then r else [x]) ++ replace1 c r xs

/-- Python's `str.strip()` on a list of characters: drop leading and
trailing whitespace. -/
def trimChars (l : List Char) : List Char :=
  ((l.dropWhile Char.isWhitespace).reverse.dropWhile Char.isWhitespace).reverse

/-- Python's `str.strip()` on a `String`. -/
def trimString (s : String) : String := String.mk (trimChars s.data)

/-- The deletion pass of the sanitizer: `replace("~","")`, then
`replace("^","")`, then `replace("\\","")`, in the source's loop order. -/
def removeForbidden (l : List Char) : List Char :=
  replace1 '\\' [] (replace1 '^' [] (replace1 '~' [] l))

/-- The escaping pass of the sanitizer: `replace(c, "\" + c)` for each of
space, `#`, `$`, `%`, `_`, `{`, `}`, in the source's loop order. -/
def escapeSpecial (l : List Char) : List Char :=
  replace1 '\x7d' ['\\', '\x7d']
    (replace1 '\x7b' ['\\', '\x7b']
      (replace1 '_' ['\\', '_']
        (replace1 '%' ['\\', '%']
          (replace1 '$' ['\\', '$']
            (replace1 '#' ['\\', '#']
              (replace1 ' ' ['\\', ' '] l))))))

/-- The full column-name transformation applied by the source to a custom
column: strip, delete forbidden characters, escape special characters. -/
def formatColName (l : List Char) : List Char :=
  escapeSpecial (removeForbidden (trimChars l))

/-- The value transformation applied by the source to every value of a
custom column: `.str.replace("$", "\$")`. -/
def escValue (l : List Char) : List Char := replace1 '$' ['\\', '$'] l

/-! ### The specification's wording of the column-name transformation

The spec describes the sanitized column identifier as obtained by
"(a) deleting each of the characters `~ ^ \`, then (b) prefixing each of the
characters space, `#`, `$`, `%`, `_`, `{`, `}` with a backslash". The two
definitions below follow those words; they intentionally contain no trim
step, which is what the claim under scrutiny asserts. -/

/-- Spec wording, step (a): delete every `~`, `^`, `\`. -/
def specRemoveForbidden (l : List Char) : List Char :=
  l.filter (fun c => !(['~', '^', '\\'].contains c))

/-- Whether a character is one of the spec's escapable specials. -/
def isSpecialChar (c : Char) : Bool :=
  [' ', '#', '$', '%', '_', '\x7b', '\x7d'].contains c

/-- Spec wording, step (b): prefix every special character with a backslash,
simultaneously over the string. -/
def specEscape : List Char → List Char
  | [] => []
  | c :: rest => (if isSpecialChar c then ['\\', c] else [c]) ++ specEscape rest

/-- The column-name recipe exactly as the claim words it: delete, then
escape, with no trimming. -/
def specColNameRecipe (l : List Char) : List Char :=
  specEscape (specRemoveForbidden l)

/-! ## Rows and the data-formatting pipeline

A raw row of `people_data` is an ordered association list from column name
to an optional cell (`none` models a null); a formatted row maps column
names to strings. `_format_data_and_derive_full_names` is modelled per row:
`fillna("") .astype(str) .apply(str.strip)` is `coerce_row`; the
`df["Full Name"] = ...` assignment is `set_col` (pandas overwrites an
existing column in place, otherwise appends a new last column); the custom
column loop plus `df.rename` is a map of `sanitize_entry`. It is invoked by
`make_pdf` only after the three distinguished columns have been validated
to exist. -/

/-- A raw input row: ordered (column name, optional cell value) pairs. -/
abbrev RawRow : Type := List (String × Option String)

/-- A coerced/formatted row: ordered (column name, string value) pairs. -/
abbrev Row : Type := List (String × String)

/-- `fillna("")`, `astype(str)`, `str.strip` on a single cell. -/
def coerce_cell (o : Option String) : String := trimString (o.getD "")

/-- Cell coercion over a whole row. -/
def coerce_row (r : RawRow) : Row := r.map (fun q => (q.1, coerce_cell q.2))

/-- `row[name]` on a formatted row: the value of the first column with the
given name (the source only reads columns it has validated to exist). -/
def get_val (row : Row) (name : String) : String :=
  ((row.find? (fun q => q.1 == name)).map Prod.snd).getD ""

/-- `df[name] = value`: overwrite every column labelled `name` in place,
or append a new last column when none exists. -/
def set_col (name v : String) (row : Row) : Row :=
  if row.any (fun q => q.1 == name) then
    row.map (fun q => if q.1 == name then (q.1, v) else q)
  else
    row ++ [(name, v)]

/-- The derived full name: `first.str.cat(last, sep=" ").str.strip()`. -/
def full_name_of (first_name_col last_name_col : String) (row : Row) : String :=
  trimString (get_val row first_name_col ++ " " ++ get_val row last_name_col)

/-- `name_and_photo_cols = ["Full Name", first_name_col, last_name_col,
photo_path_col]`. -/
def name_and_photo_cols (first_name_col last_name_col photo_path_col : String) :
    List String :=
  ["Full Name", first_name_col, last_name_col, photo_path_col]

/-- The custom-column loop body of `_format_data_and_derive_full_names` on a
single (name, value) entry: distinguished columns pass through, custom
columns get the name transformation and the `$`-escape of the value. -/
def sanitize_entry (dist : List String) (q : String × String) : String × String :=
  if dist.contains q.1 then q
  else (String.mk (formatColName q.1.data), String.mk (escValue q.2.data))

/-- One row of `_format_data_and_derive_full_names`: coerce cells, set the
`Full Name` column, then sanitize the custom columns. -/
def format_row (first_name_col last_name_col photo_path_col : String)
    (raw : RawRow) : Row :=
  (set_col "Full Name"
      (full_name_of first_name_col last_name_col (coerce_row raw))
      (coerce_row raw)).map
    (sanitize_entry (name_and_photo_cols first_name_col last_name_col photo_path_col))

/-- `_get_description_string_from_row` (lines 868-907): drop the name and
photo columns, render each remaining non-blank attribute as
`"$<name>:$ <value>"`, and join with newlines. -/
def description_string (first_name_col last_name_col photo_path_col : String)
    (row : Row) : String :=
  let remaining := row.filter
    (fun q => !((name_and_photo_cols first_name_col last_name_col photo_path_col).contains q.1))
  String.intercalate "\n" (remaining.filterMap
    (fun q => if q.2 == "" then none else some ("$" ++ q.1 ++ ":$ " ++ q.2)))

/-! ## Photo resolver and run stats (`_make_card`, lines 823-865; `make_pdf`,
lines 209-213)

The filesystem and the Pillow image codec are external collaborators,
modelled by two boolean oracles: `pathExists` is `os.path.exists`, and
`readable` means `Image.open` succeeds (does not raise `OSError`). The
resolver is total: no per-record photo condition raises. -/

/-- Oracles for the local filesystem and the image codec. -/
structure FS where
  pathExists : String → Bool
  readable : String → Bool

/-- The four terminal photo outcomes of `_make_card`. -/
inductive PhotoOutcome where
  | noPath
  | missing
  | unreadable
  | found
  deriving DecidableEq

/-- What `_make_card` decides for one record's photo: the outcome class,
the logged status and message, the image path that is opened for the inset
axes, and whether the record's full name is appended to
`people_with_photo_warnings`. -/
structure PhotoResolution where
  outcome : PhotoOutcome
  status : String
  statusMsg : String
  chosenPath : String
  addsWarning : Bool
  deriving DecidableEq

/-- The photo branch of `_make_card` (lines 823-846). -/
def resolve_photo (fs : FS) (path_to_default_photo photo_path : String) :
    PhotoResolution :=
  if photo_path ≠ "" then
    if ¬ fs.pathExists photo_path then
      ⟨.missing, "WARNING",
        "Photo path provided but photo not found; default used",
        path_to_default_photo, true⟩
    else if fs.readable photo_path then
      ⟨.found, "SUCCESS", "Photo path provided and photo read",
        photo_path, false⟩
    else
      ⟨.unreadable, "WARNING",
        "Could not read photo at `" ++ photo_path ++ "`; default used",
        path_to_default_photo, true⟩
  else
    ⟨.noPath, "SUCCESS", "No photo path provided", path_to_default_photo, false⟩

/-- The mutable `StatsDict` of the source, with its field names. -/
structure StatsDict where
  number_of_cards_created : Nat
  number_of_cards_to_create : Nat
  people_with_photo_warnings : List String
  deriving DecidableEq

/-- The stats initialisation of `make_pdf` (lines 209-213). -/
def init_stats (n : Nat) : StatsDict :=
  { number_of_cards_created := 0
    number_of_cards_to_create := n
    people_with_photo_warnings := [] }

/-- The stats effect of `_make_card` on one formatted row: the warning
append happens inside the photo branches (lines 827 and 841), the counter
increment at the very end (line 865). -/
def make_card_stats (fs : FS) (path_to_default_photo photo_path_col : String)
    (row : Row) (stats : StatsDict) : StatsDict :=
  let r := resolve_photo fs path_to_default_photo (get_val row photo_path_col)
  let stats1 :=
    if r.addsWarning then
      { stats with people_with_photo_warnings :=
          stats.people_with_photo_warnings ++ [get_val row "Full Name"] }
    else stats
  { stats1 with number_of_cards_created := stats1.number_of_cards_created + 1 }

/-- Sequential record processing: the batches of `_make_figs` walk the rows
in input order, so the run's stats are a left fold of `make_card_stats`. -/
def run_stats (fs : FS) (path_to_default_photo photo_path_col : String)
    (rows : List Row) (stats : StatsDict) : StatsDict :=
  rows.foldl (fun s r => make_card_stats fs path_to_default_photo photo_path_col r s) stats

/-- The names appended to the warning list while processing `rows`,
in processing order. -/
def warn_names (fs : FS) (path_to_default_photo photo_path_col : String)
    (rows : List Row) : List String :=
  rows.filterMap (fun r =>
    if (resolve_photo fs path_to_default_photo (get_val r photo_path_col)).addsWarning then
      some (get_val r "Full Name")
    else none)

/-! ## Paginator (`_make_figs`, lines 536-567, and `_ceil_div`,
lines 1005-1016) -/

/-- `_ceil_div`: `-(dividend // -divisor)`, with Python's floor division
modelled by `Int.fdiv`. -/
def ceil_div (dividend divisor : Int) : Int :=
  -(Int.fdiv dividend (-divisor))

/-- The number of loop iterations of `_make_figs`:
`_ceil_div(people_data.shape[0], 4)`. -/
def num_figures (n : Nat) : Nat := (ceil_div n 4).toNat

/-- The batches produced by `_make_figs`: at iteration `i` (with
`start_ind = 4 * i`) the slice `people_data.iloc[start_ind:end_ind]` where
`end_ind = start_ind + 4` capped at the row count, saved as
`figure{i + 1}.png`. Each element pairs the 1-based figure index with the
batch of rows. -/
def make_figs_batches {α : Type u} (rows : List α) : List (Nat × List α) :=
  (List.range (num_figures rows.length)).map
    (fun i => (i + 1, (rows.drop (4 * i)).take 4))

/-- Helper for reasoning about `make_figs_batches`: greedy chunking into
blocks of four. -/
def chunks4 {α : Type u} : List α → List (List α)
  | [] => []
  | x :: xs => ((x :: xs).take 4) :: chunks4 ((x :: xs).drop 4)
  termination_by l => l.length
  decreasing_by simp; omega

/-! ## Description font-shrink loop (`_make_card`, lines 800-821)

The `while True` loop lays out the description at the current font size,
reads the lower edge `y0` of its bounding box in Axes-relative coordinates,
breaks when `y0 >= 0.02`, and otherwise multiplies the font size by `0.95`
and retries. The matplotlib layout is external; it is modelled by a measurer
`measure : font size to y0` (a pure function, per the layout contract), and
the loop by fuel: `some f` means the loop exits with final font size `f`
within the given number of iterations, `none` means it is still running. -/

/-- The shrink loop of `_make_card`, fuel-indexed. -/
def desc_shrink_loop (measure : ℚ → ℚ) (desc_font_size : ℚ) :
    Nat → Option ℚ
  | 0 => none
  | fuel + 1 =>
    if measure desc_font_size ≥ 0.02 then some desc_font_size
    else desc_shrink_loop measure (desc_font_size * 0.95) fuel

/-- The font sizes `_make_card` ends up using for one card: the name is laid
out once at `name_font_size` (lines 778-789, no loop), the description goes
through the shrink loop. -/
structure CardLayoutFonts where
  name_font_size_used : ℚ
  desc_font_size_used : Option ℚ

/-- The font-size behaviour of `_make_card` for one card. -/
def make_card_fonts (measure : ℚ → ℚ) (name_font_size desc_font_size : ℚ)
    (fuel : Nat) : CardLayoutFonts :=
  { name_font_size_used := name_font_size
    desc_font_size_used := desc_shrink_loop measure desc_font_size fuel }

/-! ## `make_pdf` entry point (lines 164-258)

The preconditions run in source order: default photo existence, default
photo readability, output directory creation (external, not modelled),
required-column validation. Then `_make_figs` produces
`figure{i}.png` artifacts and `make_pdf` opens
`sorted_figure_image_paths[0]`, which raises `IndexError` when no figure
was produced. The model assumes a fresh output directory, so the globbed
PNG files are exactly the produced figures. -/

def default_photo_missing_msg : String :=
  "No photo exists at the specified default photo path. Please specify a valid path."

def default_photo_unreadable_msg (p : String) : String :=
  "Could not read the default photo at `" ++ p ++ "`. Make sure the photo is of a format supported by PIL."

/-- The columns among the three required ones that are absent from
`people_data.columns` (lines 185-189), in the source's list order. -/
def missing_columns (cols : List String) (first_name_col last_name_col photo_path_col : String) :
    List String :=
  [first_name_col, last_name_col, photo_path_col].filter (fun c => !(cols.contains c))

/-- Python's `", ".join`. -/
def join_comma : List String → String
  | [] => ""
  | [a] => a
  | a :: rest => a ++ ", " ++ join_comma rest

/-- The `ValueError` message of lines 191-194. -/
def columns_error_message (missing : List String) : String :=
  "The following columns are not in `people_data`: " ++
    join_comma missing ++ ". Please specify valid column names."

/-- Python's `IndexError` message for `sorted_figure_image_paths[0]` on an
empty list (line 239). -/
def index_error_msg : String := "list index out of range"

/-- The control skeleton of `make_pdf`: validation, per-row formatting,
stats accumulation over all records, pagination, and the first-page access
that assembles the PDF. Failures are the exceptions `make_pdf` raises. -/
def make_pdf_model (cols : List String) (rows : List RawRow)
    (first_name_col last_name_col photo_path_col : String)
    (fs : FS) (path_to_default_photo : String) : Except String StatsDict :=
  if ¬ fs.pathExists path_to_default_photo then
    .error default_photo_missing_msg
  else if ¬ fs.readable path_to_default_photo then
    .error (default_photo_unreadable_msg path_to_default_photo)
  else if ¬ (missing_columns cols first_name_col last_name_col photo_path_col).isEmpty then
    .error (columns_error_message
      (missing_columns cols first_name_col last_name_col photo_path_col))
  else
    let formatted := rows.map (format_row first_name_col last_name_col photo_path_col)
    let stats := run_stats fs path_to_default_photo photo_path_col formatted
      (init_stats rows.length)
    let batches := make_figs_batches formatted
    let image_paths := batches.map (fun b => "figure" ++ toString b.1 ++ ".png")
    match image_paths with
    | [] => .error index_error_msg
    | _ :: _ => .ok stats

/-- A measurer whose box clears the floor only once the font size has
dropped below 15. -/
def stepMeasure (f : ℚ) : ℚ := if f < 15 then 1 else 0

/-! ## Claim C2: the sanitizer transformations -/

/-- Spec wording of the value transformation: prefix every literal `$` with
a backslash, simultaneously over the string. -/
def specEscValue : List Char → List Char
  | [] => []
  | c :: rest => (if c = '$' then ['\\', '$'] else [c]) ++ specEscValue rest

/-! ## Claims C6 and C9: the description string and the `Full Name` column -/

/-- The per-entry content of `_get_description_string_from_row`: `none` for
a dropped (name/photo) column or a blank value, otherwise the rendered
`"$<name>:$ <value>"` component. -/
def desc_entry (dist : List String) (q : String × String) : Option String :=
  if dist.contains q.1 ∨ q.2 = "" then none
  else some ("$" ++ q.1 ++ ":$ " ++ q.2)

/-! ## Theorems -/

/-! ### Equivalence lemmas between the sequential-replace passes and the
spec-worded simultaneous passes -/

theorem replace1_nil_eq_filter (c : Char) (l : List Char) :
    replace1 c [] l = l.filter (fun x => x != c) := by
  induction l with
  | nil => rfl
  | cons x xs ih =>
    by_cases h : x = c <;> simp [replace1, h, ih]

theorem replace1_append (c : Char) (r : List Char) (l₁ l₂ : List Char) :
    replace1 c r (l₁ ++ l₂) = replace1 c r l₁ ++ replace1 c r l₂ := by
  induction l₁ with
  | nil => rfl
  | cons x xs ih => simp [replace1, ih]

theorem removeForbidden_eq_spec (l : List Char) :
    removeForbidden l = specRemoveForbidden l := by
  unfold removeForbidden specRemoveForbidden
  rw [replace1_nil_eq_filter, replace1_nil_eq_filter, replace1_nil_eq_filter,
    List.filter_filter, List.filter_filter]
  apply List.filter_congr
  intro x _
  by_cases h1 : x = '~' <;> by_cases h2 : x = '^' <;> by_cases h3 : x = '\\' <;>
    simp [h1, h2, h3]

theorem escapeSpecial_append (l₁ l₂ : List Char) :
    escapeSpecial (l₁ ++ l₂) = escapeSpecial l₁ ++ escapeSpecial l₂ := by
  unfold escapeSpecial
  rw [replace1_append, replace1_append, replace1_append, replace1_append,
    replace1_append, replace1_append, replace1_append]

theorem escapeSpecial_singleton (x : Char) :
    escapeSpecial [x] = if isSpecialChar x then ['\\', x] else [x] := by
  by_cases h1 : x = ' '
  · subst h1; rfl
  · by_cases h2 : x = '#'
    · subst h2; rfl
    · by_cases h3 : x = '$'
      · subst h3; rfl
      · by_cases h4 : x = '%'
        · subst h4; rfl
        · by_cases h5 : x = '_'
          · subst h5; rfl
          · by_cases h6 : x = '\x7b'
            · subst h6; rfl
            · by_cases h7 : x = '\x7d'
              · subst h7; rfl
              · have hs : isSpecialChar x = false := by
                  simp [isSpecialChar, h1, h2, h3, h4, h5, h6, h7]
                simp [escapeSpecial, replace1, h1, h2, h3, h4, h5, h6, h7, hs]

theorem escapeSpecial_eq_spec (l : List Char) :
    escapeSpecial l = specEscape l := by
  induction l with
  | nil => rfl
  | cons x xs ih =>
    have : escapeSpecial (x :: xs) = escapeSpecial ([x] ++ xs) := rfl
    rw [this, escapeSpecial_append, escapeSpecial_singleton, ih]
    rfl

/-- The source's column-name transformation equals the spec's worded recipe
applied to the *trimmed* column name. -/
theorem formatColName_eq_spec_of_trim (l : List Char) :
    formatColName l = specColNameRecipe (trimChars l) := by
  unfold formatColName specColNameRecipe
  rw [removeForbidden_eq_spec, escapeSpecial_eq_spec]

/-! ## Paginator lemmas -/

theorem num_figures_eq (n : Nat) : num_figures n = (n + 3) / 4 := by
  cases n with
  | zero => rfl
  | succ m =>
    have h : num_figures (m + 1) = m / 4 + 1 := rfl
    rw [h]
    omega

theorem make_figs_batches_nil {α : Type u} :
    make_figs_batches ([] : List α) = [] := rfl

theorem make_figs_batches_cons {α : Type u} (x : α) (xs : List α) :
    make_figs_batches (x :: xs)
      = (1, (x :: xs).take 4)
        :: (make_figs_batches ((x :: xs).drop 4)).map (fun b => (b.1 + 1, b.2)) := by
  have hlen : ((x :: xs).drop 4).length = xs.length + 1 - 4 := by
    simp
  have hk : num_figures (xs.length + 1) = num_figures (xs.length + 1 - 4) + 1 := by
    rw [num_figures_eq, num_figures_eq]; omega
  simp only [make_figs_batches, List.length_cons, hlen, hk,
    List.range_succ_eq_map, List.map_cons, List.map_map]
  congr 1
  apply List.map_congr_left
  intro i _
  show (i + 1 + 1, List.take 4 (List.drop (4 * (i + 1)) (x :: xs)))
      = (i + 1 + 1, List.take 4 (List.drop (4 * i) (List.drop 4 (x :: xs))))
  rw [List.drop_drop, show 4 * (i + 1) = 4 + 4 * i from by ring]

theorem chunks4_nil {α : Type u} : chunks4 ([] : List α) = [] := by
  simp [chunks4]

theorem chunks4_cons {α : Type u} (x : α) (xs : List α) :
    chunks4 (x :: xs) = ((x :: xs).take 4) :: chunks4 ((x :: xs).drop 4) := by
  simp [chunks4]

theorem make_figs_batches_snd {α : Type u} (l : List α) :
    (make_figs_batches l).map Prod.snd = chunks4 l := by
  induction l using chunks4.induct with
  | case1 => simp [make_figs_batches_nil, chunks4_nil]
  | case2 x xs ih =>
    rw [make_figs_batches_cons, chunks4_cons]
    simp only [List.map_cons, List.map_map]
    rw [show (Prod.snd ∘ fun b : Nat × List _ => (b.1 + 1, b.2)) = Prod.snd from rfl, ih]

theorem chunks4_eq_nil_iff {α : Type u} (l : List α) : chunks4 l = [] ↔ l = [] := by
  cases l with
  | nil => simp [chunks4_nil]
  | cons x xs => simp [chunks4_cons]

theorem chunks4_flatten {α : Type u} (l : List α) : (chunks4 l).flatten = l := by
  induction l using chunks4.induct with
  | case1 => simp [chunks4_nil]
  | case2 x xs ih =>
    rw [chunks4_cons, List.flatten_cons, ih, List.take_append_drop]

theorem chunks4_length {α : Type u} (l : List α) :
    (chunks4 l).length = (l.length + 3) / 4 := by
  induction l using chunks4.induct with
  | case1 => simp [chunks4_nil]
  | case2 x xs ih =>
    rw [chunks4_cons]
    simp only [List.length_cons, ih, List.length_drop]
    omega

theorem chunks4_dropLast {α : Type u} (l : List α) :
    ∀ b ∈ (chunks4 l).dropLast, b.length = 4 := by
  induction l using chunks4.induct with
  | case1 => simp [chunks4_nil]
  | case2 x xs ih =>
    rw [chunks4_cons]
    by_cases hd : (x :: xs).drop 4 = []
    · rw [(chunks4_eq_nil_iff _).mpr hd]
      simp
    · have hne : chunks4 ((x :: xs).drop 4) ≠ [] := by
        rw [Ne, chunks4_eq_nil_iff]; exact hd
      rw [List.dropLast_cons_of_ne_nil hne]
      intro b hb
      rcases List.mem_cons.mp hb with hb | hb
      · have hgt : 4 < (x :: xs).length := by
          by_contra hle
          exact hd (List.drop_eq_nil_iff.mpr (by omega))
        subst hb
        simp only [List.length_cons] at hgt
        simp only [List.length_take, List.length_cons]
        omega
      · exact ih b hb

theorem chunks4_getLast {α : Type u} (l : List α) (hl : l ≠ []) :
    ∃ b, (chunks4 l).getLast? = some b
      ∧ b.length = l.length - 4 * ((l.length + 3) / 4 - 1)
      ∧ 1 ≤ b.length ∧ b.length ≤ 4 := by
  induction l using chunks4.induct with
  | case1 => exact absurd rfl hl
  | case2 x xs ih =>
    by_cases hd : (x :: xs).drop 4 = []
    · have h4 : (x :: xs).length ≤ 4 := by
        have := List.drop_eq_nil_iff.mp hd
        omega
      refine ⟨(x :: xs).take 4, ?_, ?_, ?_, ?_⟩
      · rw [chunks4_cons, (chunks4_eq_nil_iff _).mpr hd]
        rfl
      · simp only [List.length_take, List.length_cons] at *
        omega
      · simp only [List.length_take, List.length_cons]
        omega
      · simp only [List.length_take, List.length_cons]
        omega
    · obtain ⟨b, hb1, hb2, hb3, hb4⟩ := ih hd
      have hgt : 4 < (x :: xs).length := by
        by_contra hle
        exact hd (List.drop_eq_nil_iff.mpr (by omega))
      refine ⟨b, ?_, ?_, hb3, hb4⟩
      · rw [chunks4_cons, List.getLast?_cons, hb1]
        rfl
      · simp only [List.length_drop] at hb2
        simp only [List.length_cons] at *
        omega

theorem make_figs_batches_length {α : Type u} (l : List α) :
    (make_figs_batches l).length = (l.length + 3) / 4 := by
  simp [make_figs_batches, num_figures_eq]

theorem make_figs_batches_fst {α : Type u} (l : List α) :
    (make_figs_batches l).map Prod.fst
      = (List.range (make_figs_batches l).length).map (fun i => i + 1) := by
  simp [make_figs_batches, List.map_map, Function.comp]

/-! ## Stats lemmas -/

theorem make_card_stats_created (fs : FS) (d pc : String) (r : Row) (s : StatsDict) :
    (make_card_stats fs d pc r s).number_of_cards_created
      = s.number_of_cards_created + 1 := by
  by_cases h : (resolve_photo fs d (get_val r pc)).addsWarning <;>
    simp [make_card_stats, h]

theorem make_card_stats_toCreate (fs : FS) (d pc : String) (r : Row) (s : StatsDict) :
    (make_card_stats fs d pc r s).number_of_cards_to_create
      = s.number_of_cards_to_create := by
  by_cases h : (resolve_photo fs d (get_val r pc)).addsWarning <;>
    simp [make_card_stats, h]

theorem make_card_stats_warnings (fs : FS) (d pc : String) (r : Row) (s : StatsDict) :
    (make_card_stats fs d pc r s).people_with_photo_warnings
      = s.people_with_photo_warnings
        ++ (if (resolve_photo fs d (get_val r pc)).addsWarning then [get_val r "Full Name"] else []) := by
  by_cases h : (resolve_photo fs d (get_val r pc)).addsWarning <;>
    simp [make_card_stats, h]

theorem warn_names_cons (fs : FS) (d pc : String) (r : Row) (rs : List Row) :
    warn_names fs d pc (r :: rs)
      = (if (resolve_photo fs d (get_val r pc)).addsWarning then [get_val r "Full Name"] else [])
        ++ warn_names fs d pc rs := by
  by_cases h : (resolve_photo fs d (get_val r pc)).addsWarning <;>
    simp [warn_names, h]

theorem run_stats_created (fs : FS) (d pc : String) (l : List Row) (s : StatsDict) :
    (run_stats fs d pc l s).number_of_cards_created
      = s.number_of_cards_created + l.length := by
  induction l generalizing s with
  | nil => simp [run_stats]
  | cons r rs ih =>
    show (run_stats fs d pc rs (make_card_stats fs d pc r s)).number_of_cards_created = _
    rw [ih, make_card_stats_created]
    simp [List.length_cons]
    omega

theorem run_stats_toCreate (fs : FS) (d pc : String) (l : List Row) (s : StatsDict) :
    (run_stats fs d pc l s).number_of_cards_to_create
      = s.number_of_cards_to_create := by
  induction l generalizing s with
  | nil => simp [run_stats]
  | cons r rs ih =>
    show (run_stats fs d pc rs (make_card_stats fs d pc r s)).number_of_cards_to_create = _
    rw [ih, make_card_stats_toCreate]

theorem run_stats_warnings (fs : FS) (d pc : String) (l : List Row) (s : StatsDict) :
    (run_stats fs d pc l s).people_with_photo_warnings
      = s.people_with_photo_warnings ++ warn_names fs d pc l := by
  induction l generalizing s with
  | nil => simp [run_stats, warn_names]
  | cons r rs ih =>
    show (run_stats fs d pc rs (make_card_stats fs d pc r s)).people_with_photo_warnings = _
    rw [ih, make_card_stats_warnings, warn_names_cons, List.append_assoc]

/-! ## Claim C3 -/

/-- C3: for every record set, `_make_figs` produces
`ceiling(record_count / 4)` batches, computed by `_ceil_div` as integer
ceiling division (`(n + 3) / 4`; in particular record counts 0, 1, 4, 5, 8,
9 give batch counts 0, 1, 1, 2, 2, 3); every batch except possibly the last
holds exactly 4 records, the last holds the remainder, the concatenation of
the batches is the input record list in order, and batch `i` is saved as
the 1-based, contiguous figure index `i + 1`. -/
theorem c3_paginator_batches (rows : List Row) :
    (make_figs_batches rows).length = (rows.length + 3) / 4
    ∧ ((make_figs_batches rows).map Prod.snd).flatten = rows
    ∧ (∀ b ∈ ((make_figs_batches rows).map Prod.snd).dropLast, b.length = 4)
    ∧ (rows ≠ [] → ∃ b, ((make_figs_batches rows).map Prod.snd).getLast? = some b
        ∧ b.length = rows.length - 4 * ((rows.length + 3) / 4 - 1)
        ∧ 1 ≤ b.length ∧ b.length ≤ 4)
    ∧ (make_figs_batches rows).map Prod.fst
        = (List.range (make_figs_batches rows).length).map (fun i => i + 1)
    ∧ num_figures 0 = 0 ∧ num_figures 1 = 1 ∧ num_figures 4 = 1
    ∧ num_figures 5 = 2 ∧ num_figures 8 = 2 ∧ num_figures 9 = 3 := by
  refine ⟨make_figs_batches_length rows, ?_, ?_, ?_, make_figs_batches_fst rows,
    by decide, by decide, by decide, by decide, by decide, by decide⟩
  · rw [make_figs_batches_snd]
    exact chunks4_flatten rows
  · rw [make_figs_batches_snd]
    exact chunks4_dropLast rows
  · intro h
    rw [make_figs_batches_snd]
    exact chunks4_getLast rows h

/-- Concrete instance of `c3_paginator_batches` at five one-column records:
the first batch has exactly four records and the last batch is the
remainder of one. -/
theorem c3_paginator_batches_witness :
    (List.replicate 4 ([] : Row)
        ∈ ((make_figs_batches (List.replicate 5 ([] : Row))).map Prod.snd).dropLast)
    ∧ (List.replicate 4 ([] : Row)).length = 4
    ∧ (List.replicate 5 ([] : Row) ≠ [])
    ∧ (∃ b, ((make_figs_batches (List.replicate 5 ([] : Row))).map Prod.snd).getLast? = some b
        ∧ b.length = (List.replicate 5 ([] : Row)).length
            - 4 * (((List.replicate 5 ([] : Row)).length + 3) / 4 - 1)
        ∧ 1 ≤ b.length ∧ b.length ≤ 4) :=
  ⟨by decide,
   (c3_paginator_batches (List.replicate 5 ([] : Row))).2.2.1 _ (by decide),
   by decide,
   (c3_paginator_batches (List.replicate 5 ([] : Row))).2.2.2.1 (by decide)⟩

/-! ## Claim C4 -/

/-- C4: for every record the photo resolver yields exactly one of four
outcomes, determined by the photo-path field and the filesystem/codec
oracles: blank path gives SUCCESS with the default photo; a set path whose
file is absent gives WARNING (missing) with the default photo; a set path
whose file is present but unreadable gives WARNING (unreadable) with the
default photo; a set path that is present and readable gives SUCCESS with
the given path. The full name is appended to the warning list exactly in
the missing and unreadable outcomes, and the resolver is a total function:
no per-record photo condition raises. -/
theorem c4_photo_resolver (fs : FS) (path_to_default_photo photo_path : String) :
    (photo_path = "" →
      resolve_photo fs path_to_default_photo photo_path
        = ⟨.noPath, "SUCCESS", "No photo path provided", path_to_default_photo, false⟩)
    ∧ (photo_path ≠ "" → fs.pathExists photo_path = false →
      resolve_photo fs path_to_default_photo photo_path
        = ⟨.missing, "WARNING", "Photo path provided but photo not found; default used",
            path_to_default_photo, true⟩)
    ∧ (photo_path ≠ "" → fs.pathExists photo_path = true → fs.readable photo_path = false →
      resolve_photo fs path_to_default_photo photo_path
        = ⟨.unreadable, "WARNING", "Could not read photo at `" ++ photo_path ++ "`; default used",
            path_to_default_photo, true⟩)
    ∧ (photo_path ≠ "" → fs.pathExists photo_path = true → fs.readable photo_path = true →
      resolve_photo fs path_to_default_photo photo_path
        = ⟨.found, "SUCCESS", "Photo path provided and photo read", photo_path, false⟩)
    ∧ ((resolve_photo fs path_to_default_photo photo_path).addsWarning = true ↔
        ((resolve_photo fs path_to_default_photo photo_path).outcome = .missing
          ∨ (resolve_photo fs path_to_default_photo photo_path).outcome = .unreadable)) := by
  refine ⟨?_, ?_, ?_, ?_, ?_⟩
  · intro hp
    simp [resolve_photo, hp]
  · intro hp he
    simp [resolve_photo, hp, he]
  · intro hp he hr
    simp [resolve_photo, hp, he, hr]
  · intro hp he hr
    simp [resolve_photo, hp, he, hr]
  · by_cases hp : photo_path = ""
    · simp [resolve_photo, hp]
    · by_cases he : fs.pathExists photo_path
      · by_cases hr : fs.readable photo_path
        · simp [resolve_photo, hp, he, hr]
        · simp [resolve_photo, hp, he, hr]
      · simp [resolve_photo, hp, he]

/-- Concrete instance of `c4_photo_resolver`: a set path whose file is
absent resolves to the missing outcome with the default photo and a
warning append. -/
theorem c4_photo_resolver_witness :
    ("p.png" ≠ "")
    ∧ (FS.mk (fun _ => false) (fun _ => false)).pathExists "p.png" = false
    ∧ resolve_photo (FS.mk (fun _ => false) (fun _ => false)) "default.png" "p.png"
        = ⟨.missing, "WARNING", "Photo path provided but photo not found; default used",
            "default.png", true⟩ :=
  ⟨by decide, rfl,
   (c4_photo_resolver (FS.mk (fun _ => false) (fun _ => false)) "default.png" "p.png").2.1
     (by decide) rfl⟩

/-! ## Claim C5 -/

/-- C5: throughout a run the cards-created counter starts at 0, increases
by exactly 1 per processed record, equals the input record count once all
records are processed, never exceeds the total cards to create, and the
photo-warning name list after any prefix of the run is exactly the warning
names of that prefix, appended in record-processing order. -/
theorem c5_stats_invariants (fs : FS) (path_to_default_photo photo_path_col : String)
    (rows : List Row) :
    ((init_stats rows.length).number_of_cards_created = 0)
    ∧ (∀ k, (run_stats fs path_to_default_photo photo_path_col (rows.take k)
        (init_stats rows.length)).number_of_cards_created = min k rows.length)
    ∧ (∀ k, k < rows.length →
        (run_stats fs path_to_default_photo photo_path_col (rows.take (k + 1))
          (init_stats rows.length)).number_of_cards_created
        = (run_stats fs path_to_default_photo photo_path_col (rows.take k)
          (init_stats rows.length)).number_of_cards_created + 1)
    ∧ ((run_stats fs path_to_default_photo photo_path_col rows
        (init_stats rows.length)).number_of_cards_created = rows.length)
    ∧ (∀ k, (run_stats fs path_to_default_photo photo_path_col (rows.take k)
        (init_stats rows.length)).number_of_cards_created
        ≤ (run_stats fs path_to_default_photo photo_path_col (rows.take k)
        (init_stats rows.length)).number_of_cards_to_create)
    ∧ (∀ k, (run_stats fs path_to_default_photo photo_path_col (rows.take k)
        (init_stats rows.length)).people_with_photo_warnings
        = warn_names fs path_to_default_photo photo_path_col (rows.take k)) := by
  refine ⟨rfl, ?_, ?_, ?_, ?_, ?_⟩
  · intro k
    rw [run_stats_created]
    simp [init_stats]
  · intro k hk
    rw [run_stats_created, run_stats_created]
    simp only [List.length_take, init_stats]
    omega
  · rw [run_stats_created]
    simp [init_stats]
  · intro k
    rw [run_stats_created, run_stats_toCreate]
    simp [init_stats]
  · intro k
    rw [run_stats_warnings]
    simp [init_stats]

/-- Concrete instance of `c5_stats_invariants`: with two records, the
counter after the first record is the counter after zero records plus
one. -/
theorem c5_stats_invariants_witness :
    (0 < ([[("Full Name", "A B")], [("Full Name", "C D")]] : List Row).length)
    ∧ (run_stats (FS.mk (fun _ => true) (fun _ => true)) "d.png" "Photo"
        (([[("Full Name", "A B")], [("Full Name", "C D")]] : List Row).take 1)
        (init_stats 2)).number_of_cards_created
      = (run_stats (FS.mk (fun _ => true) (fun _ => true)) "d.png" "Photo"
        (([[("Full Name", "A B")], [("Full Name", "C D")]] : List Row).take 0)
        (init_stats 2)).number_of_cards_created + 1 :=
  ⟨by decide,
   (c5_stats_invariants (FS.mk (fun _ => true) (fun _ => true)) "d.png" "Photo"
     [[("Full Name", "A B")], [("Full Name", "C D")]]).2.2.1 0 (by decide)⟩

/-! ## Claims C1 and C8: the description shrink loop -/

theorem desc_shrink_loop_some (measure : ℚ → ℚ) (f0 : ℚ) (fuel : Nat) (f : ℚ)
    (h : desc_shrink_loop measure f0 fuel = some f) :
    ∃ n, n < fuel ∧ f = f0 * 0.95 ^ n ∧ 0.02 ≤ measure f
      ∧ ∀ k, k < n → measure (f0 * 0.95 ^ k) < 0.02 := by
  induction fuel generalizing f0 with
  | zero => simp [desc_shrink_loop] at h
  | succ fuel ih =>
    rw [desc_shrink_loop] at h
    by_cases hb : measure f0 ≥ 0.02
    · rw [if_pos hb] at h
      have hf : f = f0 := (Option.some.inj h).symm
      subst hf
      exact ⟨0, Nat.succ_pos fuel, by ring_nf, hb, fun k hk => absurd hk (Nat.not_lt_zero k)⟩
    · rw [if_neg hb] at h
      obtain ⟨n, hn, hf, hm, hall⟩ := ih (f0 * 0.95) h
      refine ⟨n + 1, by omega, by rw [hf]; ring, hm, ?_⟩
      intro k hk
      cases k with
      | zero =>
        have : measure f0 < 0.02 := lt_of_not_le hb
        simpa using this
      | succ k' =>
        have hk' := hall k' (by omega)
        have heq : f0 * 0.95 ^ (k' + 1) = f0 * 0.95 * 0.95 ^ k' := by ring
        rw [heq]
        exact hk'

/-- C1 as stated is false on the code: the source breaks out of the shrink
loop when the description box's lower edge is greater than *or equal to*
the 0.02 floor (`y0 >= 0.02`), whereas the claim says a lower edge at the
floor triggers a retry and the loop only stops strictly above the floor.
With a measurer that always reports a lower edge of exactly 0.02, the loop
exits at once with the unchanged initial font size of 16, the final lower
edge is not strictly above the floor, and no multiplication by 0.95
happens. -/
theorem c1_shrink_loop_counterexample :
    desc_shrink_loop (fun _ => 0.02) 16 1 = some 16
    ∧ ((0.02 : ℚ) ≤ 0.02)
    ∧ ¬ ((0.02 : ℚ) > 0.02)
    ∧ (16 : ℚ) ≠ 16 * 0.95 := by
  refine ⟨?_, le_refl _, by norm_num, by norm_num⟩
  rw [desc_shrink_loop, if_pos (le_refl _)]

/-- C1 (amended): starting from the caller-supplied description font size,
the layout is re-run with the font size multiplied by exactly 0.95 as long
as the laid-out box's lower edge is strictly below the 0.02 floor, and the
loop stops as soon as the lower edge is at or above the floor; when the
loop of `_make_card` finishes, the final description font size is the
initial one times a power of 0.95, every earlier attempt measured strictly
below the floor, and the name's font size is the caller-supplied
`name_font_size`, never shrunk. -/
theorem c1_shrink_loop (measure : ℚ → ℚ) (name_font_size desc_font_size : ℚ)
    (fuel : Nat) (f : ℚ)
    (h : (make_card_fonts measure name_font_size desc_font_size fuel).desc_font_size_used
      = some f) :
    (make_card_fonts measure name_font_size desc_font_size fuel).name_font_size_used
      = name_font_size
    ∧ ∃ n, f = desc_font_size * 0.95 ^ n
      ∧ 0.02 ≤ measure f
      ∧ ∀ k, k < n → measure (desc_font_size * 0.95 ^ k) < 0.02 := by
  obtain ⟨n, _, hf, hm, hall⟩ := desc_shrink_loop_some measure desc_font_size fuel f h
  exact ⟨rfl, n, hf, hm, hall⟩

/-- Concrete instance of `c1_shrink_loop`: starting at font size 16 with
`stepMeasure`, the loop retries twice and returns `16 * 0.95 ^ 2`. -/
theorem c1_shrink_loop_witness :
    ((make_card_fonts stepMeasure 50 16 10).desc_font_size_used = some 14.44)
    ∧ ((make_card_fonts stepMeasure 50 16 10).name_font_size_used = 50
      ∧ ∃ n, (14.44 : ℚ) = 16 * 0.95 ^ n
        ∧ 0.02 ≤ stepMeasure 14.44
        ∧ ∀ k, k < n → stepMeasure (16 * 0.95 ^ k) < 0.02) :=
  ⟨by norm_num [make_card_fonts, desc_shrink_loop, stepMeasure],
   c1_shrink_loop stepMeasure 50 16 10 14.44
     (by norm_num [make_card_fonts, desc_shrink_loop, stepMeasure])⟩

/-- C8: the shrink loop has no iteration cap and no minimum font size:
there is a measurer and an initial font size (any description whose box can
structurally never clear the 0.02 floor, e.g. because the description's
anchor already sits at or below the floor) for which the loop never exits,
no matter how many iterations are allowed. -/
theorem c8_shrink_loop_no_cap :
    ∃ (measure : ℚ → ℚ) (desc_font_size : ℚ), ∀ fuel,
      desc_shrink_loop measure desc_font_size fuel = none := by
  refine ⟨fun _ => 0, 16, ?_⟩
  have key : ∀ (fuel : Nat) (f0 : ℚ),
      desc_shrink_loop (fun _ => (0 : ℚ)) f0 fuel = none := by
    intro fuel
    induction fuel with
    | zero => intro f0; rfl
    | succ n ih =>
      intro f0
      rw [desc_shrink_loop, if_neg (by norm_num)]
      exact ih _
  intro fuel
  exact key fuel 16

/-! ## Claims C7 and C10: `make_pdf` validation and empty input -/

theorem mem_join_comma_infix (a : String) (l : List String) (h : a ∈ l) :
    a.data <:+: (join_comma l).data := by
  induction l with
  | nil => cases h
  | cons b rest ih =>
    cases rest with
    | nil =>
      have hab : a = b := by simpa using h
      subst hab
      exact List.infix_refl _
    | cons c rest' =>
      rcases List.mem_cons.mp h with hab | hmem
      · subst hab
        have hpre : a.data <+: (join_comma (a :: c :: rest')).data := by
          show a.data <+: (a ++ ", " ++ join_comma (c :: rest')).data
          rw [String.data_append, String.data_append, List.append_assoc]
          exact List.prefix_append _ _
        exact hpre.isInfix
      · have hinf := ih hmem
        have hsuf : (join_comma (c :: rest')).data <:+ (join_comma (b :: c :: rest')).data := by
          show _ <:+ (b ++ ", " ++ join_comma (c :: rest')).data
          rw [String.data_append]
          exact List.suffix_append _ _
        exact hinf.trans hsuf.isInfix

theorem index_error_ne_columns_error (m : List String) :
    index_error_msg ≠ columns_error_message m := by
  intro h
  have hdata := congrArg String.data h
  rw [columns_error_message, String.data_append, String.data_append] at hdata
  simp [index_error_msg] at hdata

/-- C7: when any of the first-name, last-name or photo-path column names is
absent from the input's column schema, `make_pdf` fails (before any card is
composed) with the `ValueError` whose message is built from the complete
list of missing columns: every absent required column is in that list and
every listed name occurs verbatim in the single message. When all three are
present, that validation error is never raised. -/
theorem c7_required_columns (cols : List String) (rows : List RawRow)
    (first_name_col last_name_col photo_path_col : String) (fs : FS)
    (path_to_default_photo : String)
    (hex : fs.pathExists path_to_default_photo = true)
    (hrd : fs.readable path_to_default_photo = true) :
    (missing_columns cols first_name_col last_name_col photo_path_col ≠ [] →
      make_pdf_model cols rows first_name_col last_name_col photo_path_col fs path_to_default_photo
        = .error (columns_error_message
            (missing_columns cols first_name_col last_name_col photo_path_col)))
    ∧ (∀ c ∈ [first_name_col, last_name_col, photo_path_col], c ∉ cols →
        c ∈ missing_columns cols first_name_col last_name_col photo_path_col)
    ∧ (∀ c ∈ missing_columns cols first_name_col last_name_col photo_path_col,
        c.data <:+: (columns_error_message
          (missing_columns cols first_name_col last_name_col photo_path_col)).data)
    ∧ ((missing_columns cols first_name_col last_name_col photo_path_col = [])
        ↔ (first_name_col ∈ cols ∧ last_name_col ∈ cols ∧ photo_path_col ∈ cols))
    ∧ (missing_columns cols first_name_col last_name_col photo_path_col = [] →
        ∀ m, make_pdf_model cols rows first_name_col last_name_col photo_path_col fs
          path_to_default_photo ≠ .error (columns_error_message m)) := by
  refine ⟨?_, ?_, ?_, ?_, ?_⟩
  · intro hm
    have hne : (missing_columns cols first_name_col last_name_col photo_path_col).isEmpty = false := by
      cases hcase : missing_columns cols first_name_col last_name_col photo_path_col with
      | nil => exact absurd hcase hm
      | cons _ _ => rfl
    simp [make_pdf_model, hex, hrd, hne]
  · intro c hc hnc
    simp only [missing_columns, List.mem_filter]
    refine ⟨hc, ?_⟩
    simp [hnc]
  · intro c hc
    have hj := mem_join_comma_infix c _ hc
    rw [columns_error_message, String.data_append, String.data_append]
    exact hj.trans ⟨_, _, rfl⟩
  · rw [missing_columns, List.filter_eq_nil_iff]
    constructor
    · intro hall
      have h1 := hall first_name_col (by simp)
      have h2 := hall last_name_col (by simp)
      have h3 := hall photo_path_col (by simp)
      exact ⟨by simpa using h1, by simpa using h2, by simpa using h3⟩
    · intro ⟨h1, h2, h3⟩ a ha
      have hmem : a = first_name_col ∨ a = last_name_col ∨ a = photo_path_col := by
        simpa using ha
      rcases hmem with h | h | h <;> subst h <;> simp [h1, h2, h3]
  · intro hm m
    cases rows with
    | nil =>
      simp [make_pdf_model, hex, hrd, hm, make_figs_batches_nil]
      exact fun h => index_error_ne_columns_error m h
    | cons r rs =>
      simp [make_pdf_model, hex, hrd, hm, make_figs_batches_cons]

/-- Concrete instance of `c7_required_columns`: with schema
`["First", "Last"]` the photo column is missing, `make_pdf` raises the
validation error, and the missing name occurs in the message. -/
theorem c7_required_columns_witness :
    (missing_columns ["First", "Last"] "First" "Last" "Photo" ≠ [])
    ∧ make_pdf_model ["First", "Last"] [] "First" "Last" "Photo"
        (FS.mk (fun _ => true) (fun _ => true)) "d.png"
      = .error (columns_error_message
          (missing_columns ["First", "Last"] "First" "Last" "Photo"))
    ∧ ("Photo" ∈ missing_columns ["First", "Last"] "First" "Last" "Photo")
    ∧ "Photo".data <:+: (columns_error_message
        (missing_columns ["First", "Last"] "First" "Last" "Photo")).data :=
  ⟨by decide,
   (c7_required_columns ["First", "Last"] [] "First" "Last" "Photo"
     (FS.mk (fun _ => true) (fun _ => true)) "d.png" rfl rfl).1 (by decide),
   by decide,
   (c7_required_columns ["First", "Last"] [] "First" "Last" "Photo"
     (FS.mk (fun _ => true) (fun _ => true)) "d.png" rfl rfl).2.2.1 "Photo" (by decide)⟩

/-- C10: for an empty record set (and otherwise valid inputs) `make_pdf`
does not return a `StatsDict`: `_make_figs` produces zero figures, the
sorted list of page images is empty, and indexing its first element raises
`IndexError` instead of completing the run. -/
theorem c10_empty_records (cols : List String)
    (first_name_col last_name_col photo_path_col : String) (fs : FS)
    (path_to_default_photo : String)
    (hex : fs.pathExists path_to_default_photo = true)
    (hrd : fs.readable path_to_default_photo = true)
    (hm : missing_columns cols first_name_col last_name_col photo_path_col = []) :
    make_pdf_model cols [] first_name_col last_name_col photo_path_col fs
      path_to_default_photo = .error index_error_msg
    ∧ ∀ s, make_pdf_model cols [] first_name_col last_name_col photo_path_col fs
        path_to_default_photo ≠ .ok s := by
  have h1 : make_pdf_model cols [] first_name_col last_name_col photo_path_col fs
      path_to_default_photo = .error index_error_msg := by
    simp [make_pdf_model, hex, hrd, hm, make_figs_batches_nil]
  refine ⟨h1, fun s hs => ?_⟩
  rw [h1] at hs
  cases hs

/-- Concrete instance of `c10_empty_records`: a valid schema and default
photo with zero records gives the `IndexError`, not a stats value. -/
theorem c10_empty_records_witness :
    (missing_columns ["First", "Last", "Photo"] "First" "Last" "Photo" = [])
    ∧ make_pdf_model ["First", "Last", "Photo"] [] "First" "Last" "Photo"
        (FS.mk (fun _ => true) (fun _ => true)) "d.png" = .error index_error_msg
    ∧ ∀ s, make_pdf_model ["First", "Last", "Photo"] [] "First" "Last" "Photo"
        (FS.mk (fun _ => true) (fun _ => true)) "d.png" ≠ .ok s :=
  ⟨by decide,
   (c10_empty_records ["First", "Last", "Photo"] "First" "Last" "Photo"
     (FS.mk (fun _ => true) (fun _ => true)) "d.png" rfl rfl (by decide)).1,
   (c10_empty_records ["First", "Last", "Photo"] "First" "Last" "Photo"
     (FS.mk (fun _ => true) (fun _ => true)) "d.png" rfl rfl (by decide)).2⟩

theorem escValue_eq_spec (l : List Char) : escValue l = specEscValue l := by
  induction l with
  | nil => rfl
  | cons x xs ih =>
    simp only [escValue, replace1, specEscValue]
    rw [show replace1 '$' ['\\', '$'] xs = escValue xs from rfl, ih]

/-- C2 as stated is false on the code: the source first applies
`col.strip()` to a custom column name (line 1060), a step the claim omits.
For the column name `" A"` (leading space) the code produces `"A"`, while
the claim's recipe (delete `~ ^ \`, then escape specials) produces
`"\ A"`. -/
theorem c2_sanitizer_counterexample :
    formatColName (' ' :: ['A']) = ['A']
    ∧ specColNameRecipe (' ' :: ['A']) = ['\\', ' ', 'A']
    ∧ formatColName (' ' :: ['A']) ≠ specColNameRecipe (' ' :: ['A']) := by
  refine ⟨?_, ?_, ?_⟩ <;> decide

/-- C2 (amended): for every column entry of a coerced row that is not one
of the three distinguished columns or the derived full-name field, the
sanitizer transforms the column identifier by first trimming surrounding
whitespace, then deleting each of the characters `~`, `^`, `\`, then
prefixing each of the characters space, `#`, `$`, `%`, `_`, `{`, `}` with a
backslash, and transforms the column's value by prefixing every literal `$`
with a backslash; the three distinguished columns' names and values, and
the full-name entry, pass through the sanitizer unmodified. The spec's
round-trip examples hold: `Hobby #1`, `Salary {($)}`, `Earns $$$`,
`Inte\rests`. -/
theorem c2_sanitizer (first_name_col last_name_col photo_path_col : String) (row : Row) :
    (row.map (sanitize_entry (name_and_photo_cols first_name_col last_name_col photo_path_col))
      = row.map (fun q =>
          if (name_and_photo_cols first_name_col last_name_col photo_path_col).contains q.1 then q
          else (String.mk (specColNameRecipe (trimChars q.1.data)),
                String.mk (specEscValue q.2.data))))
    ∧ formatColName "Hobby #1".data = "Hobby\\ \\#1".data
    ∧ formatColName "Salary \x7b($)\x7d".data = "Salary\\ \\\x7b(\\$)\\\x7d".data
    ∧ escValue "Earns $$$".data = "Earns \\$\\$\\$".data
    ∧ formatColName "Inte\\rests".data = "Interests".data := by
  refine ⟨?_, by decide, by decide, by decide, by decide⟩
  apply List.map_congr_left
  intro q _
  rw [sanitize_entry]
  by_cases hq : (name_and_photo_cols first_name_col last_name_col photo_path_col).contains q.1
  · rw [if_pos hq, if_pos hq]
  · rw [if_neg hq, if_neg hq, formatColName_eq_spec_of_trim, escValue_eq_spec]

theorem filter_filterMap_desc (dist : List String) (row : Row) :
    (row.filter (fun q => !(dist.contains q.1))).filterMap
        (fun q => if q.2 == "" then none else some ("$" ++ q.1 ++ ":$ " ++ q.2))
      = row.filterMap (desc_entry dist) := by
  induction row with
  | nil => rfl
  | cons q qs ih =>
    rw [List.filter_cons]
    by_cases hq : q.1 ∈ dist
    · have hqc : dist.contains q.1 = true := by simpa using hq
      rw [if_neg (by simpa using hq), ih, List.filterMap_cons,
        show desc_entry dist q = none from by simp [desc_entry, hq]]
    · have hqc : dist.contains q.1 = false := by simpa using hq
      rw [if_pos (by simpa using hq), List.filterMap_cons, List.filterMap_cons, ih]
      by_cases hv : q.2 = ""
      · rw [show (if q.2 == "" then none else some ("$" ++ q.1 ++ ":$ " ++ q.2))
              = (none : Option String) from by simp [hv],
          show desc_entry dist q = none from by simp [desc_entry, hv]]
      · rw [show (if q.2 == "" then none else some ("$" ++ q.1 ++ ":$ " ++ q.2))
              = some ("$" ++ q.1 ++ ":$ " ++ q.2) from by simp [hv],
          show desc_entry dist q = some ("$" ++ q.1 ++ ":$ " ++ q.2) from by
            simp [desc_entry, hq, hv]]

theorem description_string_eq (first_name_col last_name_col photo_path_col : String)
    (row : Row) :
    description_string first_name_col last_name_col photo_path_col row
      = String.intercalate "\n"
          (row.filterMap (desc_entry (name_and_photo_cols first_name_col last_name_col photo_path_col))) := by
  show String.intercalate "\n"
      ((row.filter (fun q => !((name_and_photo_cols first_name_col last_name_col photo_path_col).contains q.1))).filterMap
        (fun q => if q.2 == "" then none else some ("$" ++ q.1 ++ ":$ " ++ q.2))) = _
  rw [filter_filterMap_desc]

theorem escValue_eq_nil_iff (l : List Char) : escValue l = [] ↔ l = [] := by
  cases l with
  | nil => simp [escValue, replace1]
  | cons x xs =>
    simp only [escValue, replace1]
    by_cases h : x = '$' <;> simp [h]

theorem string_mk_eq_empty_iff (l : List Char) : (String.mk l = "") ↔ l = [] := by
  constructor
  · intro h
    have := congrArg String.data h
    simpa using this
  · intro h
    subst h
    rfl

theorem filterMap_congr_mem {α β : Type u} (l : List α) (f g : α → Option β)
    (h : ∀ a ∈ l, f a = g a) : l.filterMap f = l.filterMap g := by
  induction l with
  | nil => rfl
  | cons x xs ih =>
    rw [List.filterMap_cons, List.filterMap_cons, h x (by simp),
      ih (fun a ha => h a (by simp [ha]))]

theorem filterMap_map_replace (name v : String) (r : Row)
    (g : String × String → Option String) (hg : ∀ w, g (name, w) = none) :
    (r.map (fun q => if q.1 == name then (q.1, v) else q)).filterMap g
      = r.filterMap g := by
  induction r with
  | nil => rfl
  | cons q qs ih =>
    simp only [List.map_cons, List.filterMap_cons]
    by_cases h : q.1 == name
    · have hq : q.1 = name := by simpa using h
      rw [if_pos h]
      have h1 : g (q.1, v) = none := by rw [hq]; exact hg v
      have h2 : g q = none := by
        have : q = (name, q.2) := by rw [← hq]
        rw [this]; exact hg q.2
      rw [h1, h2, ih]
    · rw [if_neg h, ih]

theorem filterMap_set_col (name v : String) (r : Row)
    (g : String × String → Option String) (hg : ∀ w, g (name, w) = none) :
    (set_col name v r).filterMap g = r.filterMap g := by
  unfold set_col
  by_cases h : r.any (fun q => q.1 == name)
  · rw [if_pos h]
    exact filterMap_map_replace name v r g hg
  · rw [if_neg h, List.filterMap_append]
    simp [hg]

theorem desc_entry_sanitize_full_name (dist : List String)
    (hFN : "Full Name" ∈ dist) (w : String) :
    desc_entry dist (sanitize_entry dist ("Full Name", w)) = none := by
  rw [show sanitize_entry dist ("Full Name", w) = ("Full Name", w) from by
    simp [sanitize_entry, hFN]]
  simp [desc_entry, hFN]

theorem desc_entry_sanitize_coerce (dist : List String) (q : String × Option String)
    (hfmt : q.1 ∉ dist → String.mk (formatColName q.1.data) ∉ dist) :
    desc_entry dist (sanitize_entry dist (q.1, coerce_cell q.2))
      = if q.1 ∈ dist ∨ coerce_cell q.2 = "" then none
        else some ("$" ++ String.mk (formatColName q.1.data) ++ ":$ "
          ++ String.mk (escValue (coerce_cell q.2).data)) := by
  by_cases hmem : q.1 ∈ dist
  · rw [show sanitize_entry dist (q.1, coerce_cell q.2) = (q.1, coerce_cell q.2) from by
      simp [sanitize_entry, hmem]]
    rw [show desc_entry dist (q.1, coerce_cell q.2) = none from by simp [desc_entry, hmem]]
    rw [if_pos (Or.inl hmem)]
  · have hf := hfmt hmem
    rw [show sanitize_entry dist (q.1, coerce_cell q.2)
        = (String.mk (formatColName q.1.data),
           String.mk (escValue (coerce_cell q.2).data)) from by
      simp [sanitize_entry, hmem]]
    by_cases hv : coerce_cell q.2 = ""
    · have hdata : (coerce_cell q.2).data = [] := by rw [hv]
      have hval : String.mk (escValue (coerce_cell q.2).data) = "" := by
        rw [hdata]; rfl
      rw [show desc_entry dist (String.mk (formatColName q.1.data),
            String.mk (escValue (coerce_cell q.2).data)) = none from by
        simp [desc_entry, hval]]
      rw [if_pos (Or.inr hv)]
    · have hdata : (coerce_cell q.2).data ≠ [] := by
        intro h0
        exact hv (String.ext (by rw [h0]))
      have hne : String.mk (escValue (coerce_cell q.2).data) ≠ "" := by
        rw [Ne, string_mk_eq_empty_iff, escValue_eq_nil_iff]
        exact hdata
      rw [show desc_entry dist (String.mk (formatColName q.1.data),
            String.mk (escValue (coerce_cell q.2).data))
          = some ("$" ++ String.mk (formatColName q.1.data) ++ ":$ "
              ++ String.mk (escValue (coerce_cell q.2).data)) from by
        simp [desc_entry, hf, hne]]
      rw [if_neg (by tauto)]

theorem description_format_row (first_name_col last_name_col photo_path_col : String)
    (raw : RawRow)
    (H : ∀ q ∈ raw,
      q.1 ∉ name_and_photo_cols first_name_col last_name_col photo_path_col →
      String.mk (formatColName q.1.data)
        ∉ name_and_photo_cols first_name_col last_name_col photo_path_col) :
    description_string first_name_col last_name_col photo_path_col
        (format_row first_name_col last_name_col photo_path_col raw)
      = String.intercalate "\n" (raw.filterMap (fun q =>
          if q.1 ∈ name_and_photo_cols first_name_col last_name_col photo_path_col
              ∨ coerce_cell q.2 = "" then none
          else some ("$" ++ String.mk (formatColName q.1.data) ++ ":$ "
            ++ String.mk (escValue (coerce_cell q.2).data)))) := by
  rw [description_string_eq]
  congr 1
  show ((set_col "Full Name"
        (full_name_of first_name_col last_name_col (coerce_row raw))
        (coerce_row raw)).map
      (sanitize_entry (name_and_photo_cols first_name_col last_name_col photo_path_col))).filterMap
      (desc_entry (name_and_photo_cols first_name_col last_name_col photo_path_col)) = _
  rw [List.filterMap_map]
  rw [filterMap_set_col _ _ _ _
    (fun w => desc_entry_sanitize_full_name _ (by simp [name_and_photo_cols]) w)]
  rw [show coerce_row raw = raw.map (fun q => (q.1, coerce_cell q.2)) from rfl,
    List.filterMap_map]
  apply filterMap_congr_mem
  intro q hq
  exact desc_entry_sanitize_coerce _ q (fun hmem => H q hq hmem)

/-- C6 as stated is false on the code: with `first_name_col = "First"` and
a custom column named `"First "` (trailing space, non-blank value `Chess`),
the sanitizer trims the custom name to `"First"`, `df.rename` produces a
duplicate `First` label, and `row.drop` in
`_get_description_string_from_row` removes every column labelled `First` -
the run completes but the non-blank attribute never appears and the
description is empty, though the claim requires every non-blank attribute
to appear. -/
theorem c6_description_counterexample :
    description_string "First" "Last" "Photo"
      (format_row "First" "Last" "Photo"
        [("First", some "Ada"), ("Last", some "Lovelace"), ("Photo", some ""),
         ("First ", some "Chess")]) = ""
    ∧ ("First " ∉ name_and_photo_cols "First" "Last" "Photo")
    ∧ coerce_cell (some "Chess") ≠ ""
    ∧ String.mk (formatColName "First ".data) = "First" := by
  refine ⟨?_, by decide, by decide, by decide⟩
  decide

/-- C6 (amended): for every record in which no custom column's sanitized
identifier equals one of the distinguished column names or the full-name
label, the description string contains exactly the attributes of the
custom columns whose coerced (trimmed) value is non-blank, in the original
column order, one rendered component per attribute joined by single line
breaks, each component being the sanitized column name followed by the
sanitized value; blank-valued attributes are omitted. On a collision the
claim fails: the colliding attribute is silently dropped from the
description (see `c6_description_counterexample`). -/
theorem c6_description (first_name_col last_name_col photo_path_col : String)
    (raw : RawRow)
    (H : ∀ q ∈ raw,
      q.1 ∉ name_and_photo_cols first_name_col last_name_col photo_path_col →
      String.mk (formatColName q.1.data)
        ∉ name_and_photo_cols first_name_col last_name_col photo_path_col) :
    description_string first_name_col last_name_col photo_path_col
        (format_row first_name_col last_name_col photo_path_col raw)
      = String.intercalate "\n" (raw.filterMap (fun q =>
          if q.1 ∈ name_and_photo_cols first_name_col last_name_col photo_path_col
              ∨ coerce_cell q.2 = "" then none
          else some ("$" ++ String.mk (formatColName q.1.data) ++ ":$ "
            ++ String.mk (escValue (coerce_cell q.2).data)))) :=
  description_format_row first_name_col last_name_col photo_path_col raw H

/-- Concrete instance of `c6_description`: a record with custom columns
`Hometown` (non-blank) and `Fun Fact` (whitespace only, hence omitted). -/
theorem c6_description_witness :
    (∀ q ∈ ([("First", some "Ada"), ("Last", some "Lovelace"), ("Photo", some ""),
        ("Hometown", some "London"), ("Fun Fact", some "  ")] : RawRow),
      q.1 ∉ name_and_photo_cols "First" "Last" "Photo" →
      String.mk (formatColName q.1.data) ∉ name_and_photo_cols "First" "Last" "Photo")
    ∧ description_string "First" "Last" "Photo"
        (format_row "First" "Last" "Photo"
          [("First", some "Ada"), ("Last", some "Lovelace"), ("Photo", some ""),
           ("Hometown", some "London"), ("Fun Fact", some "  ")])
      = String.intercalate "\n"
          (([("First", some "Ada"), ("Last", some "Lovelace"), ("Photo", some ""),
             ("Hometown", some "London"), ("Fun Fact", some "  ")] : RawRow).filterMap (fun q =>
            if q.1 ∈ name_and_photo_cols "First" "Last" "Photo"
                ∨ coerce_cell q.2 = "" then none
            else some ("$" ++ String.mk (formatColName q.1.data) ++ ":$ "
              ++ String.mk (escValue (coerce_cell q.2).data)))) :=
  ⟨by decide,
   c6_description "First" "Last" "Photo"
     [("First", some "Ada"), ("Last", some "Lovelace"), ("Photo", some ""),
      ("Hometown", some "London"), ("Fun Fact", some "  ")] (by decide)⟩

theorem format_row_eq_map_of_mem (first_name_col last_name_col photo_path_col : String)
    (raw : RawRow)
    (hfn : "Full Name" ∈ raw.map Prod.fst) :
    format_row first_name_col last_name_col photo_path_col raw
      = raw.map (fun q =>
          sanitize_entry (name_and_photo_cols first_name_col last_name_col photo_path_col)
            (if q.1 == "Full Name"
             then (q.1, full_name_of first_name_col last_name_col (coerce_row raw))
             else (q.1, coerce_cell q.2))) := by
  have hany : (coerce_row raw).any (fun q => q.1 == "Full Name") = true := by
    rw [List.any_eq_true]
    obtain ⟨q, hq, hq1⟩ := List.mem_map.mp hfn
    exact ⟨(q.1, coerce_cell q.2), List.mem_map.mpr ⟨q, hq, rfl⟩, by simp [hq1]⟩
  rw [format_row, set_col, if_pos hany, coerce_row, List.map_map, List.map_map]
  apply List.map_congr_left
  intro q _
  by_cases hq1 : q.1 = "Full Name" <;> simp [Function.comp, hq1]

theorem specEscape_space_preceded (m : List Char) :
    ∀ pre post, specEscape m = pre ++ ' ' :: post → ∃ pre', pre = pre' ++ ['\\'] := by
  induction m with
  | nil =>
    intro pre post h
    exact absurd h (by simp [specEscape])
  | cons c rest ih =>
    intro pre post h
    rw [specEscape] at h
    by_cases hc : isSpecialChar c
    · rw [if_pos hc] at h
      cases pre with
      | nil => simp at h
      | cons x pre1 =>
        cases pre1 with
        | nil =>
          simp only [List.cons_append, List.nil_append, List.cons.injEq] at h
          obtain ⟨hx, _, _⟩ := h
          exact ⟨[], by rw [← hx]; rfl⟩
        | cons y pre2 =>
          simp only [List.cons_append, List.nil_append, List.cons.injEq] at h
          obtain ⟨hx, hy, hE⟩ := h
          obtain ⟨pre', hp⟩ := ih pre2 post hE
          refine ⟨'\\' :: y :: pre', ?_⟩
          rw [← hx, hp]
          rfl
    · rw [if_neg hc] at h
      have hcs : c ≠ ' ' := by
        intro he
        exact hc (by rw [he]; decide)
      cases pre with
      | nil =>
        simp only [List.cons_append, List.nil_append, List.cons.injEq] at h
        exact absurd h.1 hcs
      | cons x pre1 =>
        simp only [List.cons_append, List.nil_append, List.cons.injEq] at h
        obtain ⟨pre', hp⟩ := ih pre1 post h.2
        exact ⟨x :: pre', by rw [hp]; rfl⟩

/-- The column-name sanitizer can never output the literal label
`Full Name`: every space in its output is prefixed by a backslash, while
`Full Name` has a bare space. -/
theorem formatColName_ne_full_name (l : List Char) :
    String.mk (formatColName l) ≠ "Full Name" := by
  intro h
  have hd : formatColName l = "Full Name".data := by
    have h2 := congrArg String.data h
    simpa using h2
  have hspec : specEscape (specRemoveForbidden (trimChars l)) = "Full Name".data := by
    rw [← escapeSpecial_eq_spec, ← removeForbidden_eq_spec]
    exact hd
  obtain ⟨pre', hp⟩ := specEscape_space_preceded (specRemoveForbidden (trimChars l))
    ['F', 'u', 'l', 'l'] ['N', 'a', 'm', 'e'] (by rw [hspec]; rfl)
  have hlast := congrArg List.getLast? hp
  rw [List.getLast?_concat] at hlast
  simp at hlast

theorem find?_format_row_full_name (first_name_col last_name_col photo_path_col d : String)
    (raw : RawRow)
    (hfn : "Full Name" ∈ raw.map Prod.fst) :
    ((raw.map (fun q =>
        sanitize_entry (name_and_photo_cols first_name_col last_name_col photo_path_col)
          (if q.1 == "Full Name" then (q.1, d) else (q.1, coerce_cell q.2)))).find?
      (fun q => q.1 == "Full Name")) = some ("Full Name", d) := by
  induction raw with
  | nil => simp at hfn
  | cons q qs ih =>
    rw [List.map_cons]
    by_cases hq1 : q.1 = "Full Name"
    · have hentry : sanitize_entry (name_and_photo_cols first_name_col last_name_col photo_path_col)
          (if q.1 == "Full Name" then (q.1, d) else (q.1, coerce_cell q.2))
          = ("Full Name", d) := by
        rw [show (q.1 == "Full Name") = true from by simp [hq1], if_pos rfl]
        simp [sanitize_entry, hq1, name_and_photo_cols]
      rw [hentry]
      exact List.find?_cons_of_pos _ (by simp)
    · have hne : (sanitize_entry (name_and_photo_cols first_name_col last_name_col photo_path_col)
          (if q.1 == "Full Name" then (q.1, d) else (q.1, coerce_cell q.2))).1
          ≠ "Full Name" := by
        rw [show (q.1 == "Full Name") = false from by simp [hq1], if_neg (by simp)]
        by_cases hmem : q.1 ∈ name_and_photo_cols first_name_col last_name_col photo_path_col
        · rw [show sanitize_entry (name_and_photo_cols first_name_col last_name_col photo_path_col)
              (q.1, coerce_cell q.2) = (q.1, coerce_cell q.2) from by simp [sanitize_entry, hmem]]
          exact hq1
        · rw [show sanitize_entry (name_and_photo_cols first_name_col last_name_col photo_path_col)
              (q.1, coerce_cell q.2)
              = (String.mk (formatColName q.1.data),
                 String.mk (escValue (coerce_cell q.2).data)) from by
            simp [sanitize_entry, hmem]]
          intro hcontra
          exact formatColName_ne_full_name q.1.data hcontra
      rw [List.find?_cons_of_neg _ (by simpa using hne)]
      have hfn' : "Full Name" ∈ qs.map Prod.fst := by
        rcases List.mem_cons.mp (by simpa using hfn : "Full Name" ∈ q.1 :: qs.map Prod.fst) with h | h
        · exact absurd h.symm hq1
        · exact h
      exact ih hfn'

theorem filterMap_filter_of_none {α β : Type u} (l : List α) (p : α → Bool)
    (g : α → Option β) (h : ∀ a ∈ l, p a = false → g a = none) :
    (l.filter p).filterMap g = l.filterMap g := by
  induction l with
  | nil => rfl
  | cons x xs ih =>
    rw [List.filter_cons]
    by_cases hx : p x
    · rw [if_pos hx, List.filterMap_cons, List.filterMap_cons,
        ih (fun a ha hpa => h a (by simp [ha]) hpa)]
    · rw [if_neg hx, List.filterMap_cons,
        h x (by simp) (by simpa using hx),
        ih (fun a ha hpa => h a (by simp [ha]) hpa)]

theorem description_format_row_raw (first_name_col last_name_col photo_path_col : String)
    (raw : RawRow) :
    description_string first_name_col last_name_col photo_path_col
        (format_row first_name_col last_name_col photo_path_col raw)
      = String.intercalate "\n" (raw.filterMap (fun q =>
          desc_entry (name_and_photo_cols first_name_col last_name_col photo_path_col)
            (sanitize_entry (name_and_photo_cols first_name_col last_name_col photo_path_col)
              (q.1, coerce_cell q.2)))) := by
  rw [description_string_eq]
  congr 1
  show ((set_col "Full Name"
        (full_name_of first_name_col last_name_col (coerce_row raw))
        (coerce_row raw)).map
      (sanitize_entry (name_and_photo_cols first_name_col last_name_col photo_path_col))).filterMap
      (desc_entry (name_and_photo_cols first_name_col last_name_col photo_path_col)) = _
  rw [List.filterMap_map]
  rw [filterMap_set_col _ _ _ _
    (fun w => desc_entry_sanitize_full_name _ (by simp [name_and_photo_cols]) w)]
  rw [show coerce_row raw = raw.map (fun q => (q.1, coerce_cell q.2)) from rfl,
    List.filterMap_map]
  rfl

/-- C9: when the input data already contains a column literally named
`Full Name`, its values are silently overwritten in place by the derived
full name (trimmed first name, a space, last name, trimmed), the row gains
no extra column, the column's name is never sanitized (the entry survives
with name `Full Name` and the derived value), and it never contributes to
the card's description: the description equals the one computed from the
input with that column removed. -/
theorem c9_full_name_overwritten (first_name_col last_name_col photo_path_col : String)
    (raw : RawRow)
    (hfn : "Full Name" ∈ raw.map Prod.fst) :
    get_val (format_row first_name_col last_name_col photo_path_col raw) "Full Name"
      = full_name_of first_name_col last_name_col (coerce_row raw)
    ∧ (format_row first_name_col last_name_col photo_path_col raw).length = raw.length
    ∧ ("Full Name", full_name_of first_name_col last_name_col (coerce_row raw))
        ∈ format_row first_name_col last_name_col photo_path_col raw
    ∧ description_string first_name_col last_name_col photo_path_col
        (format_row first_name_col last_name_col photo_path_col raw)
      = description_string first_name_col last_name_col photo_path_col
        (format_row first_name_col last_name_col photo_path_col
          (raw.filter (fun q => q.1 != "Full Name"))) := by
  have hmap := format_row_eq_map_of_mem first_name_col last_name_col photo_path_col raw hfn
  have hfind := find?_format_row_full_name first_name_col last_name_col photo_path_col
    (full_name_of first_name_col last_name_col (coerce_row raw)) raw hfn
  refine ⟨?_, ?_, ?_, ?_⟩
  · rw [get_val, hmap, hfind]
    rfl
  · rw [hmap, List.length_map]
  · rw [hmap]
    exact List.mem_of_find?_eq_some hfind
  · rw [description_format_row_raw first_name_col last_name_col photo_path_col raw,
      description_format_row_raw first_name_col last_name_col photo_path_col
        (raw.filter (fun q => q.1 != "Full Name"))]
    congr 1
    rw [filterMap_filter_of_none raw (fun q => q.1 != "Full Name") _ ?_]
    intro q hq hpq
    have hq1 : q.1 = "Full Name" := by simpa using hpq
    rw [show ((q.1, coerce_cell q.2) : String × String) = ("Full Name", coerce_cell q.2) from by
      rw [hq1]]
    exact desc_entry_sanitize_full_name _ (by simp [name_and_photo_cols]) _

/-- Concrete instance of `c9_full_name_overwritten`: a pre-existing
`Full Name` column holding `OVERRIDE` is replaced by the derived full name
and leaves the description untouched. -/
theorem c9_full_name_overwritten_witness :
    ("Full Name" ∈ ([("First", some "Ada"), ("Last", some "Lovelace"), ("Photo", some ""),
        ("Full Name", some "OVERRIDE"), ("Hobby", some "Chess")] : RawRow).map Prod.fst)
    ∧ (get_val (format_row "First" "Last" "Photo"
          [("First", some "Ada"), ("Last", some "Lovelace"), ("Photo", some ""),
           ("Full Name", some "OVERRIDE"), ("Hobby", some "Chess")]) "Full Name"
        = full_name_of "First" "Last"
            (coerce_row [("First", some "Ada"), ("Last", some "Lovelace"), ("Photo", some ""),
              ("Full Name", some "OVERRIDE"), ("Hobby", some "Chess")])
      ∧ (format_row "First" "Last" "Photo"
          [("First", some "Ada"), ("Last", some "Lovelace"), ("Photo", some ""),
           ("Full Name", some "OVERRIDE"), ("Hobby", some "Chess")]).length
        = ([("First", some "Ada"), ("Last", some "Lovelace"), ("Photo", some ""),
            ("Full Name", some "OVERRIDE"), ("Hobby", some "Chess")] : RawRow).length
      ∧ ("Full Name", full_name_of "First" "Last"
            (coerce_row [("First", some "Ada"), ("Last", some "Lovelace"), ("Photo", some ""),
              ("Full Name", some "OVERRIDE"), ("Hobby", some "Chess")]))
          ∈ format_row "First" "Last" "Photo"
            [("First", some "Ada"), ("Last", some "Lovelace"), ("Photo", some ""),
             ("Full Name", some "OVERRIDE"), ("Hobby", some "Chess")]
      ∧ description_string "First" "Last" "Photo"
          (format_row "First" "Last" "Photo"
            [("First", some "Ada"), ("Last", some "Lovelace"), ("Photo", some ""),
             ("Full Name", some "OVERRIDE"), ("Hobby", some "Chess")])
        = description_string "First" "Last" "Photo"
          (format_row "First" "Last" "Photo"
            (([("First", some "Ada"), ("Last", some "Lovelace"), ("Photo", some ""),
               ("Full Name", some "OVERRIDE"), ("Hobby", some "Chess")] : RawRow).filter
              (fun q => q.1 != "Full Name")))) :=
  ⟨by decide,
   c9_full_name_overwritten "First" "Last" "Photo"
     [("First", some "Ada"), ("Last", some "Lovelace"), ("Photo", some ""),
      ("Full Name", some "OVERRIDE"), ("Hobby", some "Chess")]
     (by decide)⟩
